import Mathlib

/-!
Shallow embedding of the ore-martingale-bot betting engine.

Rust machine integers are modelled as `Nat` (with explicit `% 2^w` where the
source can wrap); byte buffers are `List Nat` whose entries are bytes; the
`f64` multiplier arithmetic of the martingale strategy is modelled by exact
rational arithmetic with Rust's `f64::round` (round half away from zero, here
on non-negative values: `⌊q + 1/2⌋`).
-/

namespace OreBot

/-! ## Little-endian byte helpers (used by the codec, `u64::to_le_bytes` / `from_le_bytes`) -/

/-- `toLEBytes n k` is the `k`-byte little-endian encoding of `n` (low byte first),
as produced by Rust's `to_le_bytes` on a `k`-byte integer. -/
def toLEBytes : Nat → Nat → List Nat
  | _, 0 => []
  | n, k + 1 => n % 256 :: toLEBytes (n / 256) k

/-- `fromLEBytes bs` reads a little-endian byte list back into a number,
as Rust's `from_le_bytes`. -/
def fromLEBytes : List Nat → Nat
  | [] => 0
  | b :: bs => b + 256 * fromLEBytes bs

theorem toLEBytes_length (n k : Nat) : (toLEBytes n k).length = k := by
  induction k generalizing n with
  | zero => rfl
  | succ k ih => simp [toLEBytes, ih]

theorem fromLEBytes_toLEBytes (n k : Nat) :
    fromLEBytes (toLEBytes n k) = n % 256 ^ k := by
  induction k generalizing n with
  | zero => simp [toLEBytes, fromLEBytes, Nat.mod_one]
  | succ k ih =>
    simp only [toLEBytes, fromLEBytes, ih]
    rw [pow_succ, Nat.mul_comm (256 ^ k) 256, Nat.mod_mul]

/-! ## `src/ore/state.rs` : account structures and the account codec -/

/-- The `Board` account (singleton): `round_id`, `start_slot`, `end_slot`, all `u64`. -/
structure Board where
  round_id : Nat
  start_slot : Nat
  end_slot : Nat
  deriving Repr, DecidableEq

/-- The `Round` account. Scalar `u64` fields are `Nat`; the `u64` arrays
`deployed`/`count` are 25-element lists; `slot_hash` is the 32-byte list;
the two `Pubkey` fields are 32-byte lists; `rewards_factor` is 16 bytes. -/
structure Round where
  id : Nat
  deployed : List Nat
  slot_hash : List Nat
  count : List Nat
  expires_at : Nat
  motherlode : Nat
  rent_payer : List Nat
  top_miner : List Nat
  top_miner_reward : Nat
  total_deployed : Nat
  total_vaulted : Nat
  total_winnings : Nat
  deriving Repr, DecidableEq

/-- `Round::rng`: `None` when `slot_hash` is all zeros or all `0xFF`, otherwise
the XOR of the four little-endian `u64` words of `slot_hash`. -/
def Round.rng (r : Round) : Option Nat :=
  if r.slot_hash = List.replicate 32 0 ∨ r.slot_hash = List.replicate 32 255 then
    none
  else
    let r1 := fromLEBytes (r.slot_hash.take 8)
    let r2 := fromLEBytes ((r.slot_hash.drop 8).take 8)
    let r3 := fromLEBytes ((r.slot_hash.drop 16).take 8)
    let r4 := fromLEBytes ((r.slot_hash.drop 24).take 8)
    some (((r1 ^^^ r2) ^^^ r3) ^^^ r4)

/-- `Round::winning_square`: `rng % 25`. -/
def Round.winning_square (_r : Round) (rng : Nat) : Nat :=
  rng % 25

/-- The `Miner` account. `Pubkey`/byte-array fields are byte lists, `u64`/`i64`
scalars are `Nat`/`Int`. -/
structure Miner where
  authority : List Nat
  deployed : List Nat
  cumulative : List Nat
  checkpoint_fee : Nat
  checkpoint_id : Nat
  last_claim_ore_at : Int
  last_claim_sol_at : Int
  rewards_factor : List Nat
  rewards_sol : Nat
  rewards_ore : Nat
  refined_ore : Nat
  round_id : Nat
  lifetime_rewards_sol : Nat
  lifetime_rewards_ore : Nat
  deriving Repr, DecidableEq

/-- The in-memory byte image of a `Board` (`#[repr(C)]`, three consecutive
little-endian `u64` fields, no padding), as seen by `bytemuck`. -/
def encodeBoard (b : Board) : List Nat :=
  toLEBytes b.round_id 8 ++ toLEBytes b.start_slot 8 ++ toLEBytes b.end_slot 8

/-- `bytemuck`'s reinterpretation of a 24-byte buffer as a `Board`. -/
def decodeBoard (bytes : List Nat) : Board :=
  { round_id := fromLEBytes (bytes.take 8)
    start_slot := fromLEBytes ((bytes.drop 8).take 8)
    end_slot := fromLEBytes ((bytes.drop 16).take 8) }

/-- `deserialize_account::<T>`: rejects data shorter than `8 + size_of::<T>`,
skips the 8-byte discriminator, and hands the rest to `bytemuck::try_from_bytes`,
which succeeds only when the remainder's length is exactly `size_of::<T>`
(the generic `T` is modelled by its byte size `size` and decoder `dec`). -/
def deserialize_account (size : Nat) (dec : List Nat → α) (data : List Nat) :
    Except String α :=
  if data.length < 8 + size then
    .error "Account data too short"
  else
    let account_data := data.drop 8
    if account_data.length = size then
      .ok (dec account_data)
    else
      .error "Failed to deserialize account"

/-! ## `src/ore/instruction.rs` : instruction building

An instruction is modelled by its `data` byte vector together with the round id
whose PDA is passed in its account list (`none` for `ClaimS` which takes no
round account); the other accounts are deterministic functions of the signer
and are not needed by the claims. -/

/-- `DEPLOY_DISCRIMINATOR`. -/
def DEPLOY_DISCRIMINATOR : Nat := 6

/-- `CHECKPOINT_DISCRIMINATOR`. -/
def CHECKPOINT_DISCRIMINATOR : Nat := 2

/-- `CLAIM_SOL_DISCRIMINATOR`. -/
def CLAIM_SOL_DISCRIMINATOR : Nat := 3

/-- The `u32` square mask built by `build_deploy_instruction`'s loop:
`for i in 0..25 { if squares[i] { mask |= 1 << i } }`. -/
def deploy_mask (squares : Nat → Bool) : Nat :=
  (List.range 25).foldl (fun m i => if squares i then m ||| (1 <<< i) else m) 0

/-- The `data` vector of the Deploy instruction: the discriminator byte, then
`bytemuck::bytes_of(&DeployData)` = 8-byte LE amount followed by 4-byte LE mask. -/
def build_deploy_data (amount : Nat) (squares : Nat → Bool) : List Nat :=
  DEPLOY_DISCRIMINATOR :: (toLEBytes amount 8 ++ toLEBytes (deploy_mask squares) 4)

/-- A built instruction: its byte `data` and the round id whose derived round
account appears in its account list. -/
structure Instr where
  data : List Nat
  round_acc : Option Nat
  deriving Repr, DecidableEq

/-- `build_deploy_instruction` (data and round account only). -/
def build_deploy_instruction (amount round_id : Nat) (squares : Nat → Bool) : Instr :=
  { data := build_deploy_data amount squares, round_acc := some round_id }

/-- `build_checkpoint_instruction`: data is the single discriminator byte 2;
the round account is derived from `miner_round_id`. -/
def build_checkpoint_instruction (miner_round_id : Nat) : Instr :=
  { data := [CHECKPOINT_DISCRIMINATOR], round_acc := some miner_round_id }

/-- `build_claim_sol_instruction`: data is the single discriminator byte 3. -/
def build_claim_sol_instruction : Instr :=
  { data := [CLAIM_SOL_DISCRIMINATOR], round_acc := none }

/-! ## `src/mining/executor.rs` : transactions as instruction lists -/

/-- `TransactionExecutor::execute_bet`: one transaction holding a single Deploy
covering all selected squares. -/
def execute_bet (round_id : Nat) (squares : Nat → Bool) (bet_per_block : Nat) :
    List Instr :=
  [build_deploy_instruction bet_per_block round_id squares]

/-- `TransactionExecutor::execute_checkpoint_and_bet`: one transaction holding
the Checkpoint for `miner_round_id` followed by the Deploy for `bet_round_id`. -/
def execute_checkpoint_and_bet (miner_round_id bet_round_id : Nat)
    (squares : Nat → Bool) (bet_per_block : Nat) : List Instr :=
  [build_checkpoint_instruction miner_round_id,
   build_deploy_instruction bet_per_block bet_round_id squares]

/-! ## `src/main.rs` : the orchestrator's bet-submission decision

`run_betting_round` fetches the `Miner` account; when it exists and
`checkpoint_id != round_id` it calls `execute_checkpoint_and_bet(miner.round_id,
board_round, ...)`, otherwise `execute_bet(board_round, ...)`. -/

def run_betting_round_tx (miner : Option Miner) (board_round : Nat)
    (squares : Nat → Bool) (bet_per_block : Nat) : List Instr :=
  match miner with
  | some m =>
    if m.checkpoint_id ≠ m.round_id then
      execute_checkpoint_and_bet m.round_id board_round squares bet_per_block
    else
      execute_bet board_round squares bet_per_block
  | none => execute_bet board_round squares bet_per_block

/-! ## `src/config.rs` + `src/mining/strategy.rs` : the martingale engine

The `u8` counter `consecutive_losses` wraps modulo `2^8`, the `u32` counters
modulo `2^32`, the `u64` totals modulo `2^64`. `config.multiplier` is the `f64`
multiplier read by `on_loss` (its declaration is not present in `config.rs` as
shipped; the field is taken from its use in `strategy.rs`); it is modelled as
an exact rational, and `f64::round` followed by `as u64` on a non-negative
value is `Int.toNat ⌊q + 1/2⌋` (round half away from zero). -/

/-- `MartingaleConfig` (with `base_bet_lamports` already converted from SOL). -/
structure MartingaleConfig where
  base_bet_lamports : Nat
  max_consecutive_losses : Nat
  warn_consecutive_losses : Nat
  blocks_per_bet : Nat
  multiplier : ℚ
  deriving Repr, DecidableEq

/-- Rust `f64::round()` then `as u64`, on exact rational input. -/
def roundToNat (q : ℚ) : Nat :=
  (⌊q + 1 / 2⌋ : ℤ).toNat

/-- `MartingaleState`. -/
structure MartingaleState where
  current_round : Nat
  current_bet_per_block : Nat
  consecutive_losses : Nat
  total_bet_lamports : Nat
  current_cycle_bet_lamports : Nat
  total_earned_ore : Nat
  total_earned_sol : Nat
  last_win_time : Option Int
  win_count : Nat
  loss_count : Nat
  deriving Repr, DecidableEq

namespace MartingaleState

/-- `MartingaleState::new(base_bet)`. -/
def new (base_bet : Nat) : MartingaleState :=
  { current_round := 0
    current_bet_per_block := base_bet
    consecutive_losses := 0
    total_bet_lamports := 0
    current_cycle_bet_lamports := 0
    total_earned_ore := 0
    total_earned_sol := 0
    last_win_time := none
    win_count := 0
    loss_count := 0 }

/-- `update_earnings(ore_reward, sol_reward)`. -/
def update_earnings (s : MartingaleState) (ore_reward sol_reward : Nat) :
    MartingaleState :=
  { s with
    total_earned_ore := (s.total_earned_ore + ore_reward) % 2 ^ 64
    total_earned_sol := (s.total_earned_sol + sol_reward) % 2 ^ 64 }

/-- `reset_after_win(config)`; `now` stands for `chrono::Utc::now().timestamp()`. -/
def reset_after_win (s : MartingaleState) (config : MartingaleConfig) (now : Int) :
    MartingaleState :=
  { s with
    consecutive_losses := 0
    current_cycle_bet_lamports := 0
    last_win_time := some now
    win_count := (s.win_count + 1) % 2 ^ 32
    current_bet_per_block := config.base_bet_lamports }

/-- `reset(config)`. -/
def reset (s : MartingaleState) (config : MartingaleConfig) : MartingaleState :=
  { s with
    consecutive_losses := 0
    current_bet_per_block := config.base_bet_lamports
    current_cycle_bet_lamports := 0 }

/-- `on_loss(config)`, returning the new state and `(should_continue, should_warn)`. -/
def on_loss (s : MartingaleState) (config : MartingaleConfig) :
    MartingaleState × Bool × Bool :=
  let s1 : MartingaleState :=
    { s with
      consecutive_losses := (s.consecutive_losses + 1) % 2 ^ 8
      loss_count := (s.loss_count + 1) % 2 ^ 32 }
  let should_warn := decide (config.warn_consecutive_losses ≤ s1.consecutive_losses)
  if config.max_consecutive_losses ≤ s1.consecutive_losses then
    (s1.reset config, false, should_warn)
  else
    let new_bet := roundToNat ((s1.current_bet_per_block : ℚ) * config.multiplier)
    ({ s1 with current_bet_per_block := new_bet }, true, should_warn)

/-- `record_bet(total_bet)`. -/
def record_bet (s : MartingaleState) (total_bet : Nat) : MartingaleState :=
  { s with
    total_bet_lamports := (s.total_bet_lamports + total_bet) % 2 ^ 64
    current_cycle_bet_lamports := (s.current_cycle_bet_lamports + total_bet) % 2 ^ 64 }

/-- `net_profit_sol`. -/
def net_profit_sol (s : MartingaleState) : Int :=
  (s.total_earned_sol : Int) - (s.total_bet_lamports : Int)

end MartingaleState

/-- An API call on the strategy engine (used to describe reachable states). -/
inductive MOp where
  | loss
  | win (now : Int)
  | resetCall
  | bet (total : Nat)
  | earn (ore sol : Nat)
  deriving Repr, DecidableEq

/-- Apply one strategy call (dropping `on_loss`'s returned flags). -/
def applyOp (config : MartingaleConfig) (s : MartingaleState) : MOp → MartingaleState
  | .loss => (s.on_loss config).1
  | .win now => s.reset_after_win config now
  | .resetCall => s.reset config
  | .bet total => s.record_bet total
  | .earn ore sol => s.update_earnings ore sol

/-- Run a sequence of strategy calls. -/
def runOps (config : MartingaleConfig) (s : MartingaleState) (ops : List MOp) :
    MartingaleState :=
  ops.foldl (applyOp config) s

/-- The state after `k` consecutive `on_loss` calls. -/
def iterateLoss (config : MartingaleConfig) (s : MartingaleState) : Nat → MartingaleState
  | 0 => s
  | k + 1 => ((iterateLoss config s k).on_loss config).1

/-- The stake after `k` iterations of `s ↦ round(s × m)` starting from `base`:
the martingale progression actually computed by `on_loss`. -/
def betIter (base : Nat) (m : ℚ) : Nat → Nat
  | 0 => base
  | k + 1 => roundToNat ((betIter base m k : ℚ) * m)

/-! ## `src/mining/grid.rs` : block selection -/

/-- `GRID_SIZE`. -/
def GRID_SIZE : Nat := 5

/-- `TOTAL_BLOCKS`. -/
def TOTAL_BLOCKS : Nat := GRID_SIZE * GRID_SIZE

/-- `BlockPosition`. -/
structure BlockPosition where
  row : Nat
  col : Nat
  index : Nat
  deriving Repr, DecidableEq

/-- `BlockPosition::from_index` (the source asserts `index < TOTAL_BLOCKS`;
all call sites pass indices drawn from `0..25`). -/
def BlockPosition.from_index (index : Nat) : BlockPosition :=
  { row := index / GRID_SIZE, col := index % GRID_SIZE, index := index }

/-- `select_blocks(count)`: the source shuffles `0..25` with a thread RNG, takes
`min(count, 25)` indices and maps `from_index` over them. The shuffle's output
is passed in as `shuffled`, an arbitrary permutation of `0..25`. -/
def select_blocks (shuffled : List Nat) (count : Nat) : List BlockPosition :=
  ((shuffled.take (min count TOTAL_BLOCKS)).map BlockPosition.from_index)

/-! ## `src/subscription.rs` : the bounded wait on the mirrored Miner snapshot

`wait_for_wss_update(baseline, timeout)` polls `get_miner()` every 100 ms until
the timeout elapses, returning the snapshot as soon as its `rewards_sol`
strictly exceeds `baseline`, else `None`. The finitely many snapshots read
during the window are passed as the list `snaps`. -/

def wait_for_wss_update (snaps : List (Option Miner)) (baseline : Nat) :
    Option Miner :=
  match snaps with
  | [] => none
  | none :: rest => wait_for_wss_update rest baseline
  | some m :: rest =>
    if baseline < m.rewards_sol then some m
    else wait_for_wss_update rest baseline

/-! ## Helper lemmas -/

theorem take8_append (l1 l2 : List Nat) (h : l1.length = 8) :
    (l1 ++ l2).take 8 = l1 := by
  rw [← h, List.take_left]

theorem drop8_append (l1 l2 : List Nat) (h : l1.length = 8) :
    (l1 ++ l2).drop 8 = l2 := by
  rw [← h, List.drop_left]

theorem decodeBoard_encodeBoard (b : Board) (h1 : b.round_id < 2 ^ 64)
    (h2 : b.start_slot < 2 ^ 64) (h3 : b.end_slot < 2 ^ 64) :
    decodeBoard (encodeBoard b) = b := by
  obtain ⟨rid, ss, es⟩ := b
  have e256 : (256 : Nat) ^ 8 = 2 ^ 64 := by norm_num
  have l1 := toLEBytes_length rid 8
  have l2 := toLEBytes_length ss 8
  have l3 := toLEBytes_length es 8
  have hd16 : ((toLEBytes rid 8 ++ toLEBytes ss 8 ++ toLEBytes es 8).drop 16)
      = toLEBytes es 8 := by
    apply List.drop_left'
    simp [l1, l2]
  have ht3 : (toLEBytes es 8).take 8 = toLEBytes es 8 := by
    conv_lhs => rw [← l3]
    exact List.take_length _
  simp only [encodeBoard, decodeBoard] at *
  rw [List.append_assoc] at hd16 ⊢
  rw [take8_append _ _ l1, drop8_append _ _ l1, take8_append _ _ l2, hd16, ht3]
  simp only [Board.mk.injEq]
  refine ⟨?_, ?_, ?_⟩ <;>
    rw [fromLEBytes_toLEBytes, e256, Nat.mod_eq_of_lt (by omega)]

/-! ## Claims -/

/-- C4: for every `Round`, `rng()` returns `none` iff `slot_hash` is 32 zero
bytes or 32 `0xFF` bytes, and otherwise returns `some` of the XOR of the four
little-endian 64-bit words of `slot_hash`. -/
theorem C4_rng_absent_iff_and_xor (r : Round) :
    (r.rng = none ↔
      r.slot_hash = List.replicate 32 0 ∨ r.slot_hash = List.replicate 32 255) ∧
    (r.slot_hash ≠ List.replicate 32 0 → r.slot_hash ≠ List.replicate 32 255 →
      r.rng = some ((((fromLEBytes (r.slot_hash.take 8)) ^^^
        fromLEBytes ((r.slot_hash.drop 8).take 8)) ^^^
        fromLEBytes ((r.slot_hash.drop 16).take 8)) ^^^
        fromLEBytes ((r.slot_hash.drop 24).take 8))) := by
  by_cases h : r.slot_hash = List.replicate 32 0 ∨ r.slot_hash = List.replicate 32 255
  · refine ⟨?_, ?_⟩
    · unfold Round.rng
      rw [if_pos h]
      exact ⟨fun _ => h, fun _ => rfl⟩
    · intro h1 h2
      rcases h with h | h
      · exact absurd h h1
      · exact absurd h h2
  · refine ⟨?_, ?_⟩
    · unfold Round.rng
      rw [if_neg h]
      exact ⟨fun hc => absurd hc (by simp), fun hc => absurd hc h⟩
    · intro _ _
      unfold Round.rng
      rw [if_neg h]

/-- C4 witness: a concrete hash of 32 bytes `0x01` is neither all-zero nor
all-`0xFF`, and its four LE words XOR to 0. -/
theorem C4_witness :
    ({ id := 7, deployed := [], slot_hash := List.replicate 32 1, count := [],
       expires_at := 0, motherlode := 0, rent_payer := [], top_miner := [],
       top_miner_reward := 0, total_deployed := 0, total_vaulted := 0,
       total_winnings := 0 } : Round).rng = some 0 := by
  have h := (C4_rng_absent_iff_and_xor
    { id := 7, deployed := [], slot_hash := List.replicate 32 1, count := [],
      expires_at := 0, motherlode := 0, rent_payer := [], top_miner := [],
      top_miner_reward := 0, total_deployed := 0, total_vaulted := 0,
      total_winnings := 0 }).2 (by decide) (by decide)
  rw [h]
  decide

/-- C5: `deserialize_account` (instantiated at `T = Board`, 24 bytes) round
trips: any 8-byte discriminator followed by the exact byte image of a `Board`
decodes to that `Board`, and every input shorter than `8 + size_of::<T>` is
rejected. -/
theorem C5_deserialize_account_roundtrip :
    (∀ (disc : List Nat) (b : Board), disc.length = 8 →
      b.round_id < 2 ^ 64 → b.start_slot < 2 ^ 64 → b.end_slot < 2 ^ 64 →
      deserialize_account 24 decodeBoard (disc ++ encodeBoard b) = .ok b) ∧
    (∀ data : List Nat, data.length < 8 + 24 →
      deserialize_account 24 decodeBoard data = .error "Account data too short") := by
  constructor
  · intro disc b hd h1 h2 h3
    have henc : (encodeBoard b).length = 24 := by
      simp [encodeBoard, toLEBytes_length]
    have hlen : (disc ++ encodeBoard b).length = 32 := by
      simp [hd, henc]
    have hdrop : (disc ++ encodeBoard b).drop 8 = encodeBoard b :=
      drop8_append _ _ hd
    unfold deserialize_account
    rw [if_neg (by omega)]
    simp [hdrop, henc]
    exact decodeBoard_encodeBoard b h1 h2 h3
  · intro data h
    unfold deserialize_account
    rw [if_pos h]

/-- C5 witness: a concrete round trip and a concrete too-short rejection. -/
theorem C5_witness :
    deserialize_account 24 decodeBoard
      (List.replicate 8 0 ++ encodeBoard { round_id := 1, start_slot := 2, end_slot := 3 })
      = .ok { round_id := 1, start_slot := 2, end_slot := 3 } ∧
    deserialize_account 24 decodeBoard [1, 2, 3] = .error "Account data too short" :=
  ⟨C5_deserialize_account_roundtrip.1 (List.replicate 8 0) _ (by decide)
      (by norm_num) (by norm_num) (by norm_num),
   C5_deserialize_account_roundtrip.2 [1, 2, 3] (by norm_num)⟩

/-- C10: `deserialize_account` (instantiated at `T = Board`) also rejects every
input strictly longer than `8 + size_of::<T>`: only exact-length inputs decode. -/
theorem C10_deserialize_account_rejects_long (data : List Nat)
    (h : 8 + 24 < data.length) :
    deserialize_account 24 decodeBoard data = .error "Failed to deserialize account" := by
  unfold deserialize_account
  rw [if_neg (by omega)]
  simp only [List.length_drop]
  rw [if_neg (by omega)]

/-- C10 witness: a 33-byte input is rejected. -/
theorem C10_witness :
    deserialize_account 24 decodeBoard (List.replicate 33 0)
      = .error "Failed to deserialize account" :=
  C10_deserialize_account_rejects_long (List.replicate 33 0) (by norm_num)

theorem foldl_mask_testBit (squares : Nat → Bool) (n acc j : Nat) :
    ((List.range n).foldl (fun m i => if squares i then m ||| (1 <<< i) else m) acc).testBit j
      = (acc.testBit j || (decide (j < n) && squares j)) := by
  induction n with
  | zero => simp
  | succ n ih =>
    rw [List.range_succ, List.foldl_append]
    simp only [List.foldl_cons, List.foldl_nil]
    by_cases hs : squares n
    · rw [if_pos hs, Nat.testBit_lor, ih]
      rw [Nat.shiftLeft_eq, one_mul, Nat.testBit_two_pow]
      by_cases hj : j = n
      · subst hj
        simp [hs]
      · have hne : ¬(n = j) := fun hc => hj hc.symm
        rw [show (decide (j < n)) = (decide (j < n + 1)) from
          decide_eq_decide.mpr (by omega)]
        simp [hne]
    · rw [if_neg hs, ih]
      by_cases hj : j = n
      · subst hj
        simp [hs]
      · rw [show (decide (j < n)) = (decide (j < n + 1)) from
          decide_eq_decide.mpr (by omega)]

theorem foldl_mask_lt (squares : Nat → Bool) (l : List Nat) (acc : Nat)
    (hacc : acc < 2 ^ 25) (hl : ∀ i ∈ l, i < 25) :
    (l.foldl (fun m i => if squares i then m ||| (1 <<< i) else m) acc) < 2 ^ 25 := by
  induction l generalizing acc with
  | nil => simpa
  | cons a l ih =>
    simp only [List.foldl_cons]
    apply ih
    · by_cases hs : squares a
      · rw [if_pos hs]
        apply Nat.or_lt_two_pow hacc
        rw [Nat.shiftLeft_eq, one_mul]
        exact Nat.pow_lt_pow_right (by norm_num) (hl a (List.mem_cons_self a l))
      · rw [if_neg hs]
        exact hacc
    · intro i hi
      exact hl i (List.mem_cons_of_mem _ hi)

theorem deploy_mask_lt (squares : Nat → Bool) : deploy_mask squares < 2 ^ 25 := by
  apply foldl_mask_lt
  · norm_num
  · intro i hi
    exact List.mem_range.mp hi

theorem deploy_mask_testBit (squares : Nat → Bool) (j : Nat) :
    (deploy_mask squares).testBit j = (decide (j < 25) && squares j) := by
  unfold deploy_mask
  rw [foldl_mask_testBit]
  simp

/-- C6: the Deploy instruction's data is exactly 13 bytes — opcode 6, the
amount as 8 LE bytes, then a 4-byte LE bitmask whose bit `i` is set iff cell
`i` is selected; the Checkpoint data is the single byte 2 and the ClaimS
data the single byte 3. -/
theorem C6_instruction_data (amount : Nat) (squares : Nat → Bool)
    (h : amount < 2 ^ 64) :
    (build_deploy_data amount squares).length = 13 ∧
    (build_deploy_data amount squares).head? = some 6 ∧
    fromLEBytes (((build_deploy_data amount squares).drop 1).take 8) = amount ∧
    (∀ i, i < 25 →
      (fromLEBytes ((build_deploy_data amount squares).drop 9)).testBit i = squares i) ∧
    (∀ r, (build_checkpoint_instruction r).data = [2]) ∧
    build_claim_sol_instruction.data = [3] := by
  have la := toLEBytes_length amount 8
  have lm := toLEBytes_length (deploy_mask squares) 4
  refine ⟨?_, rfl, ?_, ?_, fun _ => rfl, rfl⟩
  · simp [build_deploy_data, la, lm]
  · show fromLEBytes ((toLEBytes amount 8 ++ toLEBytes (deploy_mask squares) 4).take 8)
      = amount
    rw [take8_append _ _ la, fromLEBytes_toLEBytes,
      show (256 : Nat) ^ 8 = 2 ^ 64 by norm_num]
    exact Nat.mod_eq_of_lt h
  · intro i hi
    show (fromLEBytes
        ((toLEBytes amount 8 ++ toLEBytes (deploy_mask squares) 4).drop 8)).testBit i
      = squares i
    rw [drop8_append _ _ la, fromLEBytes_toLEBytes,
      show (256 : Nat) ^ 4 = 2 ^ 32 by norm_num,
      Nat.mod_eq_of_lt (lt_trans (deploy_mask_lt squares) (by norm_num)),
      deploy_mask_testBit]
    simp [hi]

/-- C6 witness: concrete deploy data for amount 5 betting on cell 3 only. -/
theorem C6_witness :
    (build_deploy_data 5 (fun i => decide (i = 3))).length = 13 ∧
    fromLEBytes (((build_deploy_data 5 (fun i => decide (i = 3))).drop 1).take 8) = 5 ∧
    (fromLEBytes ((build_deploy_data 5 (fun i => decide (i = 3))).drop 9)).testBit 3
      = true := by
  have h := C6_instruction_data 5 (fun i => decide (i = 3)) (by norm_num)
  refine ⟨h.1, h.2.2.1, ?_⟩
  rw [h.2.2.2.1 3 (by norm_num)]
  decide

/-- A concrete `Miner` record, used at concrete instances. -/
def mkMiner (checkpoint_id round_id rewards_sol : Nat) : Miner :=
  { authority := [], deployed := [], cumulative := [], checkpoint_fee := 0,
    checkpoint_id := checkpoint_id, last_claim_ore_at := 0, last_claim_sol_at := 0,
    rewards_factor := [], rewards_sol := rewards_sol, rewards_ore := 0,
    refined_ore := 0, round_id := round_id, lifetime_rewards_sol := 0,
    lifetime_rewards_ore := 0 }

/-- C8: `wait_for_wss_update` returns a snapshot only when its `rewards_sol`
strictly exceeds the baseline, and returns `none` when no snapshot observed in
the window ever exceeds the baseline (in particular when it stays at it). -/
theorem C8_wait_only_above_baseline (snaps : List (Option Miner)) (baseline : Nat) :
    (∀ m, wait_for_wss_update snaps baseline = some m →
      baseline < m.rewards_sol ∧ some m ∈ snaps) ∧
    ((∀ m, some m ∈ snaps → m.rewards_sol ≤ baseline) →
      wait_for_wss_update snaps baseline = none) := by
  induction snaps with
  | nil =>
    refine ⟨fun m h => ?_, fun _ => rfl⟩
    simp [wait_for_wss_update] at h
  | cons s rest ih =>
    cases s with
    | none =>
      refine ⟨fun m h => ?_, fun hall => ?_⟩
      · obtain ⟨h1, h2⟩ := ih.1 m h
        exact ⟨h1, List.mem_cons_of_mem _ h2⟩
      · exact ih.2 (fun m hm => hall m (List.mem_cons_of_mem _ hm))
    | some m0 =>
      refine ⟨fun m h => ?_, fun hall => ?_⟩
      · simp only [wait_for_wss_update] at h
        by_cases hb : baseline < m0.rewards_sol
        · rw [if_pos hb] at h
          obtain rfl : m0 = m := Option.some.inj h
          exact ⟨hb, List.mem_cons_self _ _⟩
        · rw [if_neg hb] at h
          obtain ⟨h1, h2⟩ := ih.1 m h
          exact ⟨h1, List.mem_cons_of_mem _ h2⟩
      · have hb : ¬ baseline < m0.rewards_sol :=
          not_lt.mpr (hall m0 (List.mem_cons_self _ _))
        simp only [wait_for_wss_update]
        rw [if_neg hb]
        exact ih.2 (fun m hm => hall m (List.mem_cons_of_mem _ hm))

/-- C8 witness: the mirrored reward rising from 1000 to 1500 yields that
snapshot; staying at 1000 for the whole window yields `none`. -/
theorem C8_witness :
    wait_for_wss_update [some (mkMiner 0 0 1000), some (mkMiner 0 0 1500)] 1000
      = some (mkMiner 0 0 1500) ∧
    wait_for_wss_update [some (mkMiner 0 0 1000)] 1000 = none := by
  refine ⟨by decide, ?_⟩
  apply (C8_wait_only_above_baseline [some (mkMiner 0 0 1000)] 1000).2
  intro m hm
  rw [List.mem_singleton] at hm
  obtain rfl : mkMiner 0 0 1000 = m := Option.some.inj hm.symm
  decide

/-- C9: `select_blocks` returns exactly `min count 25` cells, with pairwise
distinct indices, each index below 25 and satisfying
`index = row * 5 + col` with `row < 5`, `col < 5` (for any shuffle outcome,
i.e. any permutation of `0..25`). -/
theorem C9_select_blocks_distinct (shuffled : List Nat) (count : Nat)
    (h : shuffled.Perm (List.range 25)) :
    (select_blocks shuffled count).length = min count 25 ∧
    ((select_blocks shuffled count).map BlockPosition.index).Nodup ∧
    (∀ p ∈ select_blocks shuffled count,
      p.index < 25 ∧ p.index = p.row * 5 + p.col ∧ p.row < 5 ∧ p.col < 5) := by
  have hlen : shuffled.length = 25 := by rw [h.length_eq, List.length_range]
  have hmap : (select_blocks shuffled count).map BlockPosition.index
      = shuffled.take (min count 25) := by
    unfold select_blocks
    rw [List.map_map]
    have hcomp : BlockPosition.index ∘ BlockPosition.from_index = id := by
      funext i
      rfl
    rw [show TOTAL_BLOCKS = 25 from rfl, hcomp, List.map_id]
  refine ⟨?_, ?_, ?_⟩
  · unfold select_blocks
    rw [List.length_map, List.length_take, hlen, show TOTAL_BLOCKS = 25 from rfl]
    omega
  · rw [hmap]
    exact List.Nodup.sublist (List.take_sublist _ _)
      (h.nodup_iff.mpr (List.nodup_range 25))
  · intro p hp
    unfold select_blocks at hp
    rw [List.mem_map] at hp
    obtain ⟨i, hi, rfl⟩ := hp
    have hi' : i ∈ shuffled := List.mem_of_mem_take hi
    have h25 : i < 25 := List.mem_range.mp (h.mem_iff.mp hi')
    refine ⟨h25, ?_, ?_, ?_⟩
    · show i = i / 5 * 5 + i % 5
      omega
    · show i / 5 < 5
      omega
    · show i % 5 < 5
      omega

/-- C9 witness: the identity shuffle and `count = 3`. -/
theorem C9_witness :
    (List.range 25).Perm (List.range 25) ∧
    (select_blocks (List.range 25) 3).length = min 3 25 ∧
    ((select_blocks (List.range 25) 3).map BlockPosition.index).Nodup := by
  have h := C9_select_blocks_distinct (List.range 25) 3 (List.Perm.refl _)
  exact ⟨List.Perm.refl _, h.1, h.2.1⟩

/-- C1 (amended): when the fetched Miner has `checkpoint_id ≠ round_id`, the
orchestrator submits one transaction holding the Checkpoint for the miner's
`round_id` (the last played round — not its `checkpoint_id`) followed by the
Deploy for the new round, never a bare Deploy. -/
theorem C1_checkpoint_then_deploy (m : Miner) (board_round bet : Nat)
    (squares : Nat → Bool) (h : m.checkpoint_id ≠ m.round_id) :
    run_betting_round_tx (some m) board_round squares bet =
      [{ data := [CHECKPOINT_DISCRIMINATOR], round_acc := some m.round_id },
       { data := build_deploy_data bet squares, round_acc := some board_round }] := by
  rw [show run_betting_round_tx (some m) board_round squares bet
      = if m.checkpoint_id ≠ m.round_id then
          execute_checkpoint_and_bet m.round_id board_round squares bet
        else execute_bet board_round squares bet from rfl,
    if_pos h]
  rfl

/-- C1 witness: Miner(checkpoint_id=4, round_id=5) betting on board round 6. -/
theorem C1_witness :
    run_betting_round_tx (some (mkMiner 4 5 0)) 6 (fun _ => false) 100 =
      [{ data := [CHECKPOINT_DISCRIMINATOR], round_acc := some 5 },
       { data := build_deploy_data 100 (fun _ => false), round_acc := some 6 }] :=
  C1_checkpoint_then_deploy (mkMiner 4 5 0) 6 100 (fun _ => false) (by decide)

/-- C1 counterexample: with Miner(checkpoint_id=4, round_id=5) betting on
board round 6, the transaction's Checkpoint instruction targets round 5 — no
instruction targets round 4 (the `checkpoint_id`), contrary to the claim. -/
theorem C1_counterexample :
    (run_betting_round_tx (some (mkMiner 4 5 0)) 6 (fun _ => false) 100).head? =
      some { data := [CHECKPOINT_DISCRIMINATOR], round_acc := some 5 } ∧
    ∀ ins ∈ run_betting_round_tx (some (mkMiner 4 5 0)) 6 (fun _ => false) 100,
      ins.round_acc ≠ some 4 := by
  refine ⟨rfl, ?_⟩
  decide

theorem roundToNat_ge (b : Nat) (m : ℚ) (hm : 1 ≤ m) :
    b ≤ roundToNat ((b : ℚ) * m) := by
  have h1 : (b : ℚ) ≤ (b : ℚ) * m := le_mul_of_one_le_right (by positivity) hm
  have h2 : ((b : ℤ) : ℚ) ≤ (b : ℚ) * m + 1 / 2 := by
    push_cast
    linarith
  have h3 : (b : ℤ) ≤ ⌊(b : ℚ) * m + 1 / 2⌋ := Int.le_floor.mpr h2
  unfold roundToNat
  omega

theorem iterateLoss_losses_bet (config : MartingaleConfig)
    (hcap : config.max_consecutive_losses ≤ 255) (k : Nat)
    (hk : k < config.max_consecutive_losses) :
    (iterateLoss config (MartingaleState.new config.base_bet_lamports) k).consecutive_losses
        = k ∧
    (iterateLoss config (MartingaleState.new config.base_bet_lamports) k).current_bet_per_block
        = betIter config.base_bet_lamports config.multiplier k := by
  induction k with
  | zero => exact ⟨rfl, rfl⟩
  | succ k ih =>
    obtain ⟨h1, h2⟩ := ih (by omega)
    have hmod : (k + 1) % 2 ^ 8 = k + 1 := Nat.mod_eq_of_lt (by omega)
    simp only [iterateLoss, MartingaleState.on_loss, h1, h2, hmod]
    rw [if_neg (by omega)]
    exact ⟨rfl, rfl⟩

/-- C2 (amended): from a fresh state, after `k` consecutive `on_loss` calls
with `k` below the loss cap, the stake equals the `k`-fold iterate of
`s ↦ round(s × multiplier)` starting from the base (the code compounds the
rounded stake, not `round(base × multiplier^k)`), and each of those calls
returns `continue = true`; the call that reaches the cap resets the stake to
the base, resets `consecutive_losses` to 0 and returns `continue = false`. -/
theorem C2_martingale_progression (config : MartingaleConfig)
    (hcap1 : 1 ≤ config.max_consecutive_losses)
    (hcap : config.max_consecutive_losses ≤ 255) :
    (∀ k, k < config.max_consecutive_losses →
      (iterateLoss config (MartingaleState.new config.base_bet_lamports) k).current_bet_per_block
        = betIter config.base_bet_lamports config.multiplier k ∧
      ∀ j, j < k →
        ((iterateLoss config (MartingaleState.new config.base_bet_lamports) j).on_loss
          config).2.1 = true) ∧
    ((((iterateLoss config (MartingaleState.new config.base_bet_lamports)
        (config.max_consecutive_losses - 1)).on_loss config).1.current_bet_per_block
      = config.base_bet_lamports) ∧
     (((iterateLoss config (MartingaleState.new config.base_bet_lamports)
        (config.max_consecutive_losses - 1)).on_loss config).1.consecutive_losses = 0) ∧
     (((iterateLoss config (MartingaleState.new config.base_bet_lamports)
        (config.max_consecutive_losses - 1)).on_loss config).2.1 = false)) := by
  constructor
  · intro k hk
    refine ⟨(iterateLoss_losses_bet config hcap k hk).2, ?_⟩
    intro j hj
    obtain ⟨h1, _⟩ := iterateLoss_losses_bet config hcap j (by omega)
    simp only [MartingaleState.on_loss, h1]
    rw [Nat.mod_eq_of_lt (by omega), if_neg (by omega)]
  · have hsum : config.max_consecutive_losses - 1 + 1 = config.max_consecutive_losses := by
      omega
    obtain ⟨h1, _⟩ := iterateLoss_losses_bet config hcap
      (config.max_consecutive_losses - 1) (by omega)
    simp only [MartingaleState.on_loss, h1, hsum]
    rw [Nat.mod_eq_of_lt (by omega), if_pos (le_refl _)]
    exact ⟨rfl, rfl, rfl⟩

/-- A concrete configuration with base 5, cap 3, warning threshold 2 and
multiplier 2. -/
def cfgDoubling : MartingaleConfig :=
  { base_bet_lamports := 5, max_consecutive_losses := 3,
    warn_consecutive_losses := 2, blocks_per_bet := 1, multiplier := 2 }

/-- C2 witness: with base 5, multiplier 2 and cap 3, the stake after two
losses follows the iterated progression and the third loss stops betting. -/
theorem C2_witness :
    (iterateLoss cfgDoubling (MartingaleState.new cfgDoubling.base_bet_lamports)
        2).current_bet_per_block = betIter 5 2 2 ∧
    ((iterateLoss cfgDoubling (MartingaleState.new cfgDoubling.base_bet_lamports)
        2).on_loss cfgDoubling).2.1 = false := by
  have h := C2_martingale_progression cfgDoubling (by decide) (by decide)
  exact ⟨(h.1 2 (by decide)).1, h.2.2.2⟩

/-- A concrete configuration with base 5 and multiplier 3/2. -/
def cfgSesqui : MartingaleConfig :=
  { base_bet_lamports := 5, max_consecutive_losses := 5,
    warn_consecutive_losses := 3, blocks_per_bet := 1, multiplier := 3 / 2 }

/-- C2 counterexample: with base 5 and multiplier 3/2, two losses give stake
12 (round(round(5·1.5)·1.5) = round(8·1.5)), while the claim's formula
round(5·1.5²) = round(11.25) gives 11. -/
theorem C2_counterexample :
    (iterateLoss cfgSesqui (MartingaleState.new cfgSesqui.base_bet_lamports)
        2).current_bet_per_block = 12 ∧
    roundToNat ((5 : ℚ) * ((3 : ℚ) / 2) ^ 2) = 11 ∧ (12 : Nat) ≠ 11 := by
  refine ⟨?_, ?_, by norm_num⟩
  · rw [(iterateLoss_losses_bet cfgSesqui (by decide) 2 (by decide)).2]
    show betIter 5 (3 / 2) 2 = 12
    have r1 : roundToNat (((5 : ℕ) : ℚ) * (3 / 2)) = 8 := by
      unfold roundToNat
      rw [show ⌊((5 : ℕ) : ℚ) * (3 / 2) + 1 / 2⌋ = (8 : ℤ) by push_cast; norm_num]
      rfl
    have r2 : roundToNat (((8 : ℕ) : ℚ) * (3 / 2)) = 12 := by
      unfold roundToNat
      rw [show ⌊((8 : ℕ) : ℚ) * (3 / 2) + 1 / 2⌋ = (12 : ℤ) by push_cast; norm_num]
      rfl
    simp only [betIter]
    rw [r1, r2]
  · unfold roundToNat
    rw [show ⌊(5 : ℚ) * ((3 : ℚ) / 2) ^ 2 + 1 / 2⌋ = (11 : ℤ) by norm_num]
    rfl

theorem runOps_bet_ge (config : MartingaleConfig) (hm : 1 ≤ config.multiplier)
    (ops : List MOp) :
    ∀ s : MartingaleState,
      config.base_bet_lamports ≤ s.current_bet_per_block →
      config.base_bet_lamports ≤ (runOps config s ops).current_bet_per_block := by
  induction ops with
  | nil => exact fun s hs => hs
  | cons op rest ih =>
    intro s hs
    rw [show runOps config s (op :: rest) = runOps config (applyOp config s op) rest
      from rfl]
    apply ih
    cases op with
    | loss =>
      show config.base_bet_lamports ≤ ((s.on_loss config).1).current_bet_per_block
      simp only [MartingaleState.on_loss]
      split
      · exact le_rfl
      · exact le_trans hs (roundToNat_ge _ _ hm)
    | win now => exact le_rfl
    | resetCall => exact le_rfl
    | bet total => exact hs
    | earn ore sol => exact hs

/-- C3 (amended): with multiplier ≥ 1, every state reachable from
`new(base)` by `on_loss`, `reset_after_win`, `reset`, `record_bet` and
`update_earnings` calls keeps `current_bet_per_block ≥ base`, and the stake
equals the base immediately after a win and immediately after the loss cap is
reached (with multiplier below 1 the stake drops below the base, see the
counterexample). -/
theorem C3_bet_at_least_base (config : MartingaleConfig)
    (hm : 1 ≤ config.multiplier) :
    (∀ ops : List MOp,
      config.base_bet_lamports ≤
        (runOps config (MartingaleState.new config.base_bet_lamports)
          ops).current_bet_per_block) ∧
    (∀ (s : MartingaleState) (now : Int),
      (s.reset_after_win config now).current_bet_per_block
        = config.base_bet_lamports) ∧
    (∀ s : MartingaleState, (s.on_loss config).2.1 = false →
      (s.on_loss config).1.current_bet_per_block = config.base_bet_lamports) := by
  refine ⟨fun ops => runOps_bet_ge config hm ops _ le_rfl, fun s now => rfl, ?_⟩
  intro s hfalse
  by_cases hc : config.max_consecutive_losses ≤ (s.consecutive_losses + 1) % 2 ^ 8
  · simp only [MartingaleState.on_loss]
    rw [if_pos hc]
    rfl
  · simp only [MartingaleState.on_loss] at hfalse
    rw [if_neg hc] at hfalse
    simp at hfalse

/-- A concrete configuration with base 10 and multiplier 2. -/
def cfgTen : MartingaleConfig :=
  { base_bet_lamports := 10, max_consecutive_losses := 10,
    warn_consecutive_losses := 5, blocks_per_bet := 1, multiplier := 2 }

/-- C3 witness: multiplier 2 ≥ 1 and the stake stays at or above the base
after two losses. -/
theorem C3_witness :
    (1 : ℚ) ≤ cfgTen.multiplier ∧
    10 ≤ (runOps cfgTen (MartingaleState.new cfgTen.base_bet_lamports)
      [.loss, .loss]).current_bet_per_block := by
  have h := C3_bet_at_least_base cfgTen (by norm_num [cfgTen])
  exact ⟨by norm_num [cfgTen], h.1 [.loss, .loss]⟩

/-- A concrete configuration with base 10 and multiplier 1/2. -/
def cfgShrink : MartingaleConfig :=
  { base_bet_lamports := 10, max_consecutive_losses := 5,
    warn_consecutive_losses := 3, blocks_per_bet := 1, multiplier := 1 / 2 }

/-- C3 counterexample: nothing in the code constrains the configured
multiplier; with multiplier 1/2 a single loss drops the stake to 5, strictly
below the base 10, refuting the claim for arbitrary configurations. -/
theorem C3_counterexample :
    (runOps cfgShrink (MartingaleState.new cfgShrink.base_bet_lamports)
      [.loss]).current_bet_per_block = 5 ∧ (5 : Nat) < 10 := by
  refine ⟨?_, by norm_num⟩
  show ((MartingaleState.new 10).on_loss cfgShrink).1.current_bet_per_block = 5
  simp only [MartingaleState.on_loss, MartingaleState.new]
  rw [if_neg (by decide)]
  show roundToNat (((10 : ℕ) : ℚ) * cfgShrink.multiplier) = 5
  unfold roundToNat
  rw [show ⌊((10 : ℕ) : ℚ) * cfgShrink.multiplier + 1 / 2⌋ = (5 : ℤ) by
    norm_num [cfgShrink]]
  rfl

/-- C7: along a fresh loss streak below the cap, the `should_warn` flag
returned by `on_loss` is true exactly when the post-increment loss count
`k + 1` has reached the configured warning threshold, and false below it. -/
theorem C7_should_warn_at_threshold (config : MartingaleConfig)
    (hcap : config.max_consecutive_losses ≤ 255) (k : Nat)
    (hk : k < config.max_consecutive_losses) :
    (((iterateLoss config (MartingaleState.new config.base_bet_lamports) k).on_loss
        config).2.2 = true
      ↔ config.warn_consecutive_losses ≤ k + 1) := by
  obtain ⟨h1, _⟩ := iterateLoss_losses_bet config hcap k hk
  simp only [MartingaleState.on_loss, h1]
  rw [Nat.mod_eq_of_lt (show k + 1 < 2 ^ 8 by omega)]
  split
  · simp
  · simp

/-- A concrete configuration with warning threshold 2 and cap 5. -/
def cfgWarnTwo : MartingaleConfig :=
  { base_bet_lamports := 7, max_consecutive_losses := 5,
    warn_consecutive_losses := 2, blocks_per_bet := 1, multiplier := 2 }

/-- C7 witness: with threshold 2, the second loss warns and the first does not. -/
theorem C7_witness :
    (((iterateLoss cfgWarnTwo (MartingaleState.new cfgWarnTwo.base_bet_lamports)
        1).on_loss cfgWarnTwo).2.2 = true) ∧
    ¬ (((iterateLoss cfgWarnTwo (MartingaleState.new cfgWarnTwo.base_bet_lamports)
        0).on_loss cfgWarnTwo).2.2 = true) := by
  refine ⟨(C7_should_warn_at_threshold cfgWarnTwo (by decide) 1 (by decide)).mpr
      (by decide),
    fun hc => absurd
      ((C7_should_warn_at_threshold cfgWarnTwo (by decide) 0 (by decide)).mp hc)
      (by decide)⟩

end OreBot
